import Mathlib

/-!
Verification of the crypto-trader repository's order-book fill-price engine and
nonce sources against its specification.

Shallow embedding, translated from:
  - src/market/orderbook.rs       (fill-price engine, book construction)
  - src/market/api/public.rs      (raw snapshot types)
  - src/market/api/private.rs     (stateful nonce counter)
  - src/market/private.rs         (clock-reading nonce helper)
  - src/market/public/orderbook.rs (early best-bid/offer spread query)

Conventions: `rust_decimal::Decimal` values are modelled as exact rationals
(`Rat`); `u64` arithmetic is `Nat` reduced modulo `2 ^ 64` where it matters;
fallible operations return an explicit result type whose constructors name the
source's failure paths, including process aborts.
-/

namespace CryptoTrader

/-- Embeds `Position` from src/market/orderbook.rs. -/
inductive Position where
  | buy
  | sell
deriving DecidableEq

/-- Embeds `Order` (one resting price level) from src/market/orderbook.rs. -/
structure Order where
  position : Position
  price : Rat
  volume : Rat
deriving DecidableEq

/-- Embeds `OrderBook` from src/market/orderbook.rs: `buys` is kept highest
bid first, `sells` lowest ask first. -/
structure OrderBook where
  buys : List Order
  sells : List Order
deriving DecidableEq

/-- Outcome of `OrderBook::price_to_fill`: `ok p` is `Ok(p)`;
`insufficientLiquidity` is the `bail!("failed to fill {} order", pos)` path;
`divByZero` marks reaching the unguarded `total_spend / volume` with
`volume = 0`, on which `rust_decimal` division aborts the process. -/
inductive FillResult where
  | ok (price : Rat)
  | insufficientLiquidity
  | divByZero
deriving DecidableEq

/-- The level walk of `price_to_fill` (its `for order in v.iter()` loop), with
state `(still_to_fill, total_spend)`: while `still_to_fill > order.volume` a
level is consumed whole; otherwise the remainder is taken at that level's
price and the loop stops. Returns the final state. -/
def fillLoop : List Order → Rat → Rat → Rat × Rat
  | [], still_to_fill, total_spend => (still_to_fill, total_spend)
  | o :: os, still_to_fill, total_spend =>
    if o.volume < still_to_fill then
      fillLoop os (still_to_fill - o.volume) (total_spend + o.volume * o.price)
    else
      (0, total_spend + still_to_fill * o.price)

/-- The side a market order matches against (the `match pos` opening
`price_to_fill`): a market buy consumes the sells, a market sell the buys. -/
def OrderBook.side (b : OrderBook) : Position → List Order
  | .buy => b.sells
  | .sell => b.buys

/-- Embeds `OrderBook::price_to_fill` from src/market/orderbook.rs lines
34-66: walk the matching side, bail if volume remains unfilled, otherwise
return `total_spend / volume` (whose divisor the code never checks). -/
def OrderBook.price_to_fill (b : OrderBook) (volume : Rat) (pos : Position) : FillResult :=
  let r := fillLoop (b.side pos) volume 0
  if 0 < r.1 then .insufficientLiquidity
  else if volume = 0 then .divByZero
  else .ok (r.2 / volume)

/-- Embeds `OrderBook::price_to_fill_buy_order`. -/
def OrderBook.price_to_fill_buy_order (b : OrderBook) (volume : Rat) : FillResult :=
  b.price_to_fill volume .buy

/-- Embeds `OrderBook::price_to_fill_sell_order`. -/
def OrderBook.price_to_fill_sell_order (b : OrderBook) (volume : Rat) : FillResult :=
  b.price_to_fill volume .sell

/-- Outcome of `OrderBook::spread_to_fill`: `ok` carries the returned pair,
`err` is a propagated fill failure, `divByZero` a propagated division abort. -/
inductive SpreadResult where
  | ok (pair : Rat × Rat)
  | err
  | divByZero
deriving DecidableEq

/-- Embeds `OrderBook::spread_to_fill` from src/market/orderbook.rs lines
18-22: queries the buy fill price, then the sell fill price (`?` propagates
the first failure), and returns `Ok((sell_price, buy_price))`. -/
def OrderBook.spread_to_fill (b : OrderBook) (volume : Rat) : SpreadResult :=
  match b.price_to_fill_buy_order volume with
  | .insufficientLiquidity => .err
  | .divByZero => .divByZero
  | .ok buy_price =>
    match b.price_to_fill_sell_order volume with
    | .insufficientLiquidity => .err
    | .divByZero => .divByZero
    | .ok sell_price => .ok (sell_price, buy_price)

/-- Embeds `api::OrderType` from src/market/api/public.rs. -/
inductive OrderType where
  | buy
  | sell
deriving DecidableEq

/-- Embeds `api::PublicOrder`, the raw snapshot level: price and volume are
nullable, exactly as consumed by the `TryFrom<&api::PublicOrder> for Order`
conversion in src/market/orderbook.rs. -/
structure PublicOrder where
  order_type : OrderType
  price : Option Rat
  volume : Option Rat
deriving DecidableEq

/-- Embeds `api::OrderBook`, the raw snapshot (metadata string fields are not
consumed by the conversion and are omitted). -/
structure ApiOrderBook where
  buy_orders : List PublicOrder
  sell_orders : List PublicOrder
deriving DecidableEq

/-- Embeds `From<api::OrderType> for Position`. -/
def Position.ofOrderType : OrderType → Position
  | .buy => .buy
  | .sell => .sell

/-- Embeds `TryFrom<&api::PublicOrder> for Order`: `none` is the `NullValue`
error, raised when price or volume is missing. -/
def Order.tryFrom (o : PublicOrder) : Option Order :=
  match o.price with
  | none => none
  | some price =>
    match o.volume with
    | none => none
    | some volume => some ⟨Position.ofOrderType o.order_type, price, volume⟩

/-- Ordered insertion, the helper of `sortBy`. -/
def insertBy {α : Type} (r : α → α → Prop) [DecidableRel r] (a : α) : List α → List α
  | [] => [a]
  | x :: xs => if r a x then a :: x :: xs else x :: insertBy r a xs

/-- Insertion sort. Models `slice::sort_unstable_by` with the comparator `r`:
any sorting algorithm realises the same guarantee (a permutation of the input
sorted for the comparator); only the relative order of equal keys, which Rust
leaves unspecified for an unstable sort, depends on this modelling choice. -/
def sortBy {α : Type} (r : α → α → Prop) [DecidableRel r] : List α → List α
  | [] => []
  | x :: xs => insertBy r x (sortBy r xs)

/-- Embeds `impl From<api::OrderBook> for OrderBook` from
src/market/orderbook.rs lines 69-96: parse each raw level, dropping levels
with a missing field (`NullValue`) and levels whose position does not match
their side (logged, not kept); then sort buys by descending price and sells by
ascending price. -/
def OrderBook.fromApi (orderbook : ApiOrderBook) : OrderBook :=
  let buys := (orderbook.buy_orders.filterMap Order.tryFrom).filter
    (fun o => o.position == Position.buy)
  let sells := (orderbook.sell_orders.filterMap Order.tryFrom).filter
    (fun o => o.position == Position.sell)
  { buys := sortBy (fun a b : Order => b.price ≤ a.price) buys
    sells := sortBy (fun a b : Order => a.price ≤ b.price) sells }

/-- Total volume resting on a list of levels. -/
def sumVolume : List Order → Rat
  | [] => 0
  | o :: os => o.volume + sumVolume os

/-- The `total_cost` of the spec's fill algorithm (spec section 4.5, step 3),
written as a pure recursion: consume a whole level while more than its volume
remains, otherwise price the remainder at that level. -/
def vwapCost : List Order → Rat → Rat
  | [], _ => 0
  | o :: os, v =>
    if o.volume < v then o.volume * o.price + vwapCost os (v - o.volume)
    else v * o.price

/-- Spec section 8 multi-level example: sells `[price 100 volume 2, price 110
volume 3]`, empty buys. -/
def exampleBook : OrderBook :=
  ⟨[], [⟨.sell, 100, 2⟩, ⟨.sell, 110, 3⟩]⟩

/-- Spec section 8 spread example: buys `[price 99 volume 10]`, sells
`[price 101 volume 10]`. -/
def c2Book : OrderBook :=
  ⟨[⟨.buy, 99, 10⟩], [⟨.sell, 101, 10⟩]⟩

/-- Price negation on a level; transfers buy-side (descending) facts to the
sell-side (ascending) setting. -/
def negPrice (o : Order) : Order :=
  ⟨o.position, -o.price, o.volume⟩

/-- Two-sided concrete book used to instantiate the monotonicity result:
buys `[price 99 volume 2, price 98 volume 3]`, sells `[price 100 volume 2,
price 110 volume 3]`. -/
def mBook : OrderBook :=
  ⟨[⟨.buy, 99, 2⟩, ⟨.buy, 98, 3⟩], [⟨.sell, 100, 2⟩, ⟨.sell, 110, 3⟩]⟩

namespace ApiPrivate

/-- Modulus of `u64` arithmetic. -/
def U64MOD : Nat := 2 ^ 64

/-- Embeds the nonce-relevant state of `api::Private`
(src/market/api/private.rs line 41). -/
structure Private where
  nonce : Nat
deriving DecidableEq

/-- Embeds `Private::inc_nonce` (src/market/api/private.rs lines 470-474):
returns the stored nonce and increments it by one (`u64` wrap-around is made
explicit). -/
def Private.inc_nonce (p : Private) : Nat × Private :=
  (p.nonce, ⟨(p.nonce + 1) % U64MOD⟩)

/-- Value handed out by the `(n+1)`-st `inc_nonce` call starting from state
`p`. -/
def nthNonce (p : Private) : Nat → Nat
  | 0 => (p.inc_nonce).1
  | n + 1 => nthNonce (p.inc_nonce).2 n

end ApiPrivate

namespace MarketPrivate

/-- Embeds `nonce()` from src/market/private.rs lines 118-125: it reads the
wall clock on every call. The clock reading is the explicit input: `some secs`
is a successful `duration_since(UNIX_EPOCH)` in whole seconds, `none` its
error case, on which the code's `.expect("Time went backwards")` aborts the
process (result `none`). -/
def nonce : Option Nat → Option Nat
  | some secs => some secs
  | none => none

/-- Nonces issued by successive `nonce()` calls under a trace of clock
readings; `none` as soon as any call aborts. -/
def nonceSeq : List (Option Nat) → Option (List Nat)
  | [] => some []
  | c :: cs =>
    match nonce c, nonceSeq cs with
    | some v, some vs => some (v :: vs)
    | _, _ => none

end MarketPrivate

/-- Modelled from the spec: `crate::nonce()`, the seed helper of the nonce
counter, is code of this repository missing from src/ (only its callers
remain, src/market.rs line 33 and src/api.rs line 31). Per spec section 4.1 it
reads the Unix time in seconds once, at seed time, and falls back to 0 when
the clock is unavailable. -/
def crateNonce : Option Nat → Nat
  | some secs => secs
  | none => 0

namespace PublicOrderbook

/-- Embeds the per-level record of src/market/public/orderbook.rs (its struct
named `OrderType`). Its `f32` price and volume are abstracted as exact
rationals; the claim settled against this file (behaviour on an empty side)
does not depend on float arithmetic. -/
structure POrder where
  order_type : String
  price : Rat
  volume : Rat
deriving DecidableEq

/-- Embeds `OrderBook` of src/market/public/orderbook.rs (metadata string
fields omitted). -/
structure OrderBook where
  buy_orders : List POrder
  sell_orders : List POrder
deriving DecidableEq

/-- Outcome of `bid_offer_spread`: the formatted string output is modelled by
the three numbers it interpolates; `unwrapAbort` marks `.first().unwrap()`
evaluated on an empty side, which aborts the process. -/
inductive SpreadOutput where
  | ok (highest_bid lowest_offer spread : Rat)
  | unwrapAbort
deriving DecidableEq

/-- Truncation toward zero on rationals (`f32::trunc`). -/
def truncRat (x : Rat) : Rat :=
  if 0 ≤ x then ((⌊x⌋ : Int) : Rat) else ((⌈x⌉ : Int) : Rat)

/-- Embeds `truncate_to_decimal_places` (idealised to exact arithmetic):
multiply by ten `n` times, truncate, divide back. -/
def truncate_to_decimal_places (x : Rat) (n : Nat) : Rat :=
  truncRat (x * 10 ^ n) / 10 ^ n

/-- Embeds `truncate_to_cents`. -/
def truncate_to_cents (x : Rat) : Rat :=
  truncate_to_decimal_places x 2

/-- Embeds `OrderBook::sort`: offers ascending by price; bids sorted ascending
then reversed. (`partial_cmp(..).unwrap_or(Equal)` is a total comparison on
the rational model.) -/
def OrderBook.sortSides (b : OrderBook) : OrderBook :=
  { buy_orders :=
      (CryptoTrader.sortBy (fun a b : POrder => a.price ≤ b.price) b.buy_orders).reverse
    sell_orders :=
      CryptoTrader.sortBy (fun a b : POrder => a.price ≤ b.price) b.sell_orders }

/-- Embeds `OrderBook::bid_offer_spread` from src/market/public/orderbook.rs
lines 25-35: sort, then take the first element of each side with
`.first().unwrap()` — aborting when a side is empty — and report the best bid,
the best offer, and their difference truncated to cents. -/
def OrderBook.bid_offer_spread (b : OrderBook) : SpreadOutput :=
  let s := b.sortSides
  match s.buy_orders.head?, s.sell_orders.head? with
  | some hb, some lo => .ok hb.price lo.price (truncate_to_cents (lo.price - hb.price))
  | _, _ => .unwrapAbort

end PublicOrderbook

end CryptoTrader

namespace CryptoTrader

theorem mem_insertBy {α : Type} (r : α → α → Prop) [DecidableRel r] (a x : α) (l : List α) :
    x ∈ insertBy r a l ↔ x = a ∨ x ∈ l := by
  induction l with
  | nil => simp [insertBy]
  | cons y ys ih =>
    by_cases hc : r a y
    · simp [insertBy, hc]
    · simp [insertBy, hc, ih]
      tauto

theorem pairwise_insertBy {α : Type} (r : α → α → Prop) [DecidableRel r]
    (htot : ∀ a b, r a b ∨ r b a) (htrans : ∀ a b c, r a b → r b c → r a c)
    (a : α) (l : List α) (h : l.Pairwise r) : (insertBy r a l).Pairwise r := by
  induction l with
  | nil => simp [insertBy]
  | cons y ys ih =>
    rw [List.pairwise_cons] at h
    obtain ⟨hy, hys⟩ := h
    by_cases hc : r a y
    · rw [insertBy, if_pos hc]
      rw [List.pairwise_cons]
      refine ⟨?_, List.pairwise_cons.mpr ⟨hy, hys⟩⟩
      intro z hz
      rcases List.mem_cons.mp hz with h1 | hz
      · rw [h1]; exact hc
      · exact htrans a y z hc (hy z hz)
    · rw [insertBy, if_neg hc]
      rw [List.pairwise_cons]
      refine ⟨?_, ih hys⟩
      intro z hz
      rcases (mem_insertBy r a z ys).mp hz with h1 | hz
      · rw [h1]; exact (htot a y).resolve_left hc
      · exact hy z hz

theorem pairwise_sortBy {α : Type} (r : α → α → Prop) [DecidableRel r]
    (htot : ∀ a b, r a b ∨ r b a) (htrans : ∀ a b c, r a b → r b c → r a c)
    (l : List α) : (sortBy r l).Pairwise r := by
  induction l with
  | nil => simp [sortBy]
  | cons x xs ih => exact pairwise_insertBy r htot htrans x _ ih

theorem sumVolume_nonneg (l : List Order) (h : ∀ o ∈ l, 0 ≤ o.volume) :
    0 ≤ sumVolume l := by
  induction l with
  | nil => simp [sumVolume]
  | cons o os ih =>
    simp only [sumVolume]
    have h1 := h o (List.mem_cons_self _ _)
    have h2 := ih fun x hx => h x (List.mem_cons_of_mem _ hx)
    linarith

theorem fillLoop_snd (l : List Order) : ∀ v s : Rat, (fillLoop l v s).2 = s + vwapCost l v := by
  induction l with
  | nil => intro v s; simp [fillLoop, vwapCost]
  | cons o os ih =>
    intro v s
    by_cases hc : o.volume < v
    · rw [fillLoop, if_pos hc, vwapCost, if_pos hc, ih]
      ring
    · rw [fillLoop, if_neg hc, vwapCost, if_neg hc]

theorem fillLoop_fst (l : List Order) : ∀ v s : Rat, (∀ o ∈ l, 0 ≤ o.volume) → 0 ≤ v →
    (fillLoop l v s).1 = max (v - sumVolume l) 0 := by
  induction l with
  | nil =>
    intro v s _ hv
    simp only [fillLoop, sumVolume, sub_zero]
    exact (max_eq_left hv).symm
  | cons o os ih =>
    intro v s hnn hv
    have hov : 0 ≤ o.volume := hnn o (List.mem_cons_self _ _)
    have hos : ∀ x ∈ os, 0 ≤ x.volume := fun x hx => hnn x (List.mem_cons_of_mem _ hx)
    by_cases hc : o.volume < v
    · rw [fillLoop, if_pos hc, ih _ _ hos (by linarith)]
      simp only [sumVolume]
      congr 1
      ring
    · rw [fillLoop, if_neg hc]
      have hsum : 0 ≤ sumVolume os := sumVolume_nonneg os hos
      simp only [sumVolume]
      exact (max_eq_right (by linarith [not_lt.mp hc])).symm

theorem price_to_fill_ok (b : OrderBook) (pos : Position) (v : Rat) (hv : 0 < v)
    (hnn : ∀ o ∈ b.side pos, 0 ≤ o.volume) (hd : v ≤ sumVolume (b.side pos)) :
    b.price_to_fill v pos = .ok (vwapCost (b.side pos) v / v) := by
  simp only [OrderBook.price_to_fill]
  rw [fillLoop_fst _ _ _ hnn hv.le, fillLoop_snd]
  rw [max_eq_right (by linarith)]
  rw [if_neg (lt_irrefl 0), if_neg hv.ne', zero_add]

theorem price_to_fill_insufficient_iff (b : OrderBook) (pos : Position) (v : Rat)
    (hv : 0 < v) (hnn : ∀ o ∈ b.side pos, 0 ≤ o.volume) :
    b.price_to_fill v pos = .insufficientLiquidity ↔ sumVolume (b.side pos) < v := by
  simp only [OrderBook.price_to_fill]
  rw [fillLoop_fst _ _ _ hnn hv.le]
  by_cases hi : sumVolume (b.side pos) < v
  · rw [if_pos (lt_max_iff.mpr (Or.inl (sub_pos.mpr hi)))]
    simp [hi]
  · rw [max_eq_right (by linarith [not_lt.mp hi])]
    rw [if_neg (lt_irrefl 0), if_neg hv.ne']
    simp [hi]

theorem le_vwapCost (l : List Order) : ∀ p v : Rat, (∀ o ∈ l, p ≤ o.price) →
    (∀ o ∈ l, 0 ≤ o.volume) → 0 ≤ v → v ≤ sumVolume l → v * p ≤ vwapCost l v := by
  induction l with
  | nil =>
    intro p v _ _ hv hvs
    simp only [sumVolume] at hvs
    have hz : v = 0 := le_antisymm hvs hv
    simp [vwapCost, hz]
  | cons o os ih =>
    intro p v hp hnn hv hvs
    have hpo : p ≤ o.price := hp o (List.mem_cons_self _ _)
    have hpos : ∀ x ∈ os, p ≤ x.price := fun x hx => hp x (List.mem_cons_of_mem _ hx)
    have hvo : 0 ≤ o.volume := hnn o (List.mem_cons_self _ _)
    have hnos : ∀ x ∈ os, 0 ≤ x.volume := fun x hx => hnn x (List.mem_cons_of_mem _ hx)
    simp only [sumVolume] at hvs
    by_cases hc : o.volume < v
    · have htail := ih p (v - o.volume) hpos hnos (by linarith) (by linarith)
      have hmul : o.volume * p ≤ o.volume * o.price := mul_le_mul_of_nonneg_left hpo hvo
      have hsplit : v * p = o.volume * p + (v - o.volume) * p := by ring
      rw [vwapCost, if_pos hc]
      linarith
    · rw [vwapCost, if_neg hc]
      exact mul_le_mul_of_nonneg_left hpo hv

theorem vwapCost_mul_mono (l : List Order) : ∀ v1 v2 : Rat,
    l.Pairwise (fun a b => a.price ≤ b.price) → (∀ o ∈ l, 0 ≤ o.volume) →
    0 < v1 → v1 ≤ v2 → v2 ≤ sumVolume l →
    v2 * vwapCost l v1 ≤ v1 * vwapCost l v2 := by
  induction l with
  | nil =>
    intro v1 v2 _ _ _ _ _
    simp [vwapCost]
  | cons o os ih =>
    intro v1 v2 hpw hnn h1 h12 h2s
    rw [List.pairwise_cons] at hpw
    obtain ⟨hhead, hpw2⟩ := hpw
    have hvo : 0 ≤ o.volume := hnn o (List.mem_cons_self _ _)
    have hnos : ∀ x ∈ os, 0 ≤ x.volume := fun x hx => hnn x (List.mem_cons_of_mem _ hx)
    simp only [sumVolume] at h2s
    by_cases hc2 : o.volume < v2
    · by_cases hc1 : o.volume < v1
      · have ha : (0:Rat) < v1 - o.volume := by linarith
        have hIH := ih (v1 - o.volume) (v2 - o.volume) hpw2 hnos ha (by linarith) (by linarith)
        have hLB := le_vwapCost os o.price (v1 - o.volume) hhead hnos ha.le (by linarith)
        have e1 : v1 * ((v2 - o.volume) * vwapCost os (v1 - o.volume)) ≤
            v1 * ((v1 - o.volume) * vwapCost os (v2 - o.volume)) :=
          mul_le_mul_of_nonneg_left hIH h1.le
        have e2 : 0 ≤ o.volume * (v2 - v1) *
            (vwapCost os (v1 - o.volume) - (v1 - o.volume) * o.price) :=
          mul_nonneg (mul_nonneg hvo (by linarith)) (by linarith)
        rw [vwapCost, if_pos hc1, vwapCost, if_pos hc2]
        nlinarith [e1, e2, ha]
      · have hb : (0:Rat) ≤ v2 - o.volume := by linarith
        have hLB := le_vwapCost os o.price (v2 - o.volume) hhead hnos hb (by linarith)
        have e1 : 0 ≤ v1 * (vwapCost os (v2 - o.volume) - (v2 - o.volume) * o.price) :=
          mul_nonneg h1.le (by linarith)
        rw [vwapCost, if_neg hc1, vwapCost, if_pos hc2]
        nlinarith [e1]
    · have hc1 : ¬ o.volume < v1 := fun h => hc2 (lt_of_lt_of_le h h12)
      rw [vwapCost, if_neg hc1, vwapCost, if_neg hc2]
      have he : v2 * (v1 * o.price) = v1 * (v2 * o.price) := by ring
      linarith

theorem vwap_div_mono (l : List Order) (v1 v2 : Rat)
    (hpw : l.Pairwise fun a b => a.price ≤ b.price) (hnn : ∀ o ∈ l, 0 ≤ o.volume)
    (h1 : 0 < v1) (h12 : v1 ≤ v2) (h2s : v2 ≤ sumVolume l) :
    vwapCost l v1 / v1 ≤ vwapCost l v2 / v2 := by
  have h2 : 0 < v2 := lt_of_lt_of_le h1 h12
  rw [div_le_div_iff₀ h1 h2]
  have hm := vwapCost_mul_mono l v1 v2 hpw hnn h1 h12 h2s
  linarith [hm]

theorem sumVolume_map_negPrice (l : List Order) :
    sumVolume (l.map negPrice) = sumVolume l := by
  induction l with
  | nil => simp [sumVolume]
  | cons o os ih => simp [sumVolume, negPrice, ih]

theorem vwapCost_map_negPrice (l : List Order) : ∀ v : Rat,
    vwapCost (l.map negPrice) v = -vwapCost l v := by
  induction l with
  | nil => intro v; simp [vwapCost]
  | cons o os ih =>
    intro v
    by_cases hc : o.volume < v
    · simp only [List.map_cons, vwapCost, negPrice, if_pos hc, ih]
      ring
    · simp only [List.map_cons, vwapCost, negPrice, if_neg hc]
      ring

theorem vwap_div_antitone (l : List Order) (v1 v2 : Rat)
    (hpw : l.Pairwise fun a b => b.price ≤ a.price) (hnn : ∀ o ∈ l, 0 ≤ o.volume)
    (h1 : 0 < v1) (h12 : v1 ≤ v2) (h2s : v2 ≤ sumVolume l) :
    vwapCost l v2 / v2 ≤ vwapCost l v1 / v1 := by
  have hpw2 : (l.map negPrice).Pairwise fun a b => a.price ≤ b.price := by
    rw [List.pairwise_map]
    exact hpw.imp fun h => by simpa [negPrice] using neg_le_neg h
  have hnn2 : ∀ o ∈ l.map negPrice, 0 ≤ o.volume := by
    intro o ho
    rw [List.mem_map] at ho
    obtain ⟨x, hx, hxo⟩ := ho
    rw [← hxo]
    simpa [negPrice] using hnn x hx
  have hmono := vwap_div_mono (l.map negPrice) v1 v2 hpw2 hnn2 h1 h12
    (by rw [sumVolume_map_negPrice]; exact h2s)
  rw [vwapCost_map_negPrice, vwapCost_map_negPrice, neg_div, neg_div,
    neg_le_neg_iff] at hmono
  exact hmono

theorem nthNonce_eq (n : Nat) : ∀ seed : Nat, seed + n < ApiPrivate.U64MOD →
    ApiPrivate.nthNonce ⟨seed⟩ n = seed + n := by
  induction n with
  | zero =>
    intro seed _
    simp [ApiPrivate.nthNonce, ApiPrivate.Private.inc_nonce]
  | succ n ih =>
    intro seed h
    have h1 : seed + 1 < ApiPrivate.U64MOD := by omega
    show ApiPrivate.nthNonce (ApiPrivate.Private.inc_nonce ⟨seed⟩).2 n = seed + (n + 1)
    simp only [ApiPrivate.Private.inc_nonce]
    rw [Nat.mod_eq_of_lt h1, ih (seed + 1) (by omega)]
    omega

/-- C1: for every order book whose matching side (sells for a market buy,
buys for a market sell) has cumulative level volume at least `v`, and every
requested volume `v > 0` — levels carrying the data model's non-negative
volumes — `price_to_fill` walks that side best-first, consumes whole levels
while the remainder exceeds the level's volume and a final partial level
otherwise, and returns `Ok(total_cost / v)`, the volume-weighted average
execution price (`vwapCost` is the spec's accumulated `total_cost`). -/
theorem C1_fill_price_is_vwap (b : OrderBook) (pos : Position) (v : Rat) (hv : 0 < v)
    (hnn : ∀ o ∈ b.side pos, 0 ≤ o.volume) (hd : v ≤ sumVolume (b.side pos)) :
    b.price_to_fill v pos = .ok (vwapCost (b.side pos) v / v) :=
  price_to_fill_ok b pos v hv hnn hd

/-- C1 witness: the spec's multi-level example — `price_to_fill(Buy, 4)` on
sells `[price 100 volume 2, price 110 volume 3]` equals 105. -/
theorem C1_fill_price_witness : exampleBook.price_to_fill 4 .buy = .ok 105 :=
  (C1_fill_price_is_vwap exampleBook .buy 4 (by norm_num)
    (by norm_num [exampleBook, OrderBook.side, List.forall_mem_cons])
    (by norm_num [exampleBook, OrderBook.side, sumVolume])).trans
    (by norm_num [exampleBook, OrderBook.side, vwapCost])

/-- C2 counterexample: on buys `[price 99 volume 10]`, sells `[price 101
volume 10]` and volume 1, `spread_to_fill` returns the pair `(99, 101)` —
sell price first — and not `(101, 99)` as the claim states. -/
theorem C2_pair_order_counterexample :
    c2Book.spread_to_fill 1 = .ok (99, 101) ∧ c2Book.spread_to_fill 1 ≠ .ok (101, 99) := by
  constructor <;>
    norm_num [c2Book, OrderBook.spread_to_fill, OrderBook.price_to_fill_buy_order,
      OrderBook.price_to_fill_sell_order, OrderBook.price_to_fill, OrderBook.side, fillLoop]

/-- C2 amended: `spread_to_fill(v)` returns `Ok((sell_price, buy_price))` —
the market-sell fill price (against the buys) first and the market-buy fill
price (against the sells) second — whenever both sides have depth at least
`v > 0`, and an error when either side lacks depth. -/
theorem C2_spread_to_fill_pair (b : OrderBook) (v : Rat) (hv : 0 < v)
    (hbn : ∀ o ∈ b.buys, 0 ≤ o.volume) (hsn : ∀ o ∈ b.sells, 0 ≤ o.volume) :
    (v ≤ sumVolume b.buys → v ≤ sumVolume b.sells →
      b.spread_to_fill v = .ok (vwapCost b.buys v / v, vwapCost b.sells v / v)) ∧
    ((sumVolume b.sells < v ∨ sumVolume b.buys < v) → b.spread_to_fill v = .err) := by
  constructor
  · intro hdb hds
    have e1 := price_to_fill_ok b .buy v hv hsn hds
    have e2 := price_to_fill_ok b .sell v hv hbn hdb
    simp only [OrderBook.spread_to_fill, OrderBook.price_to_fill_buy_order,
      OrderBook.price_to_fill_sell_order, OrderBook.side, e1, e2]
  · intro hor
    by_cases hsell : sumVolume b.sells < v
    · have e1 := (price_to_fill_insufficient_iff b .buy v hv hsn).mpr hsell
      simp only [OrderBook.spread_to_fill, OrderBook.price_to_fill_buy_order, e1]
    · have hds : v ≤ sumVolume b.sells := not_lt.mp hsell
      have hbuys : sumVolume b.buys < v := hor.resolve_left hsell
      have e1 := price_to_fill_ok b .buy v hv hsn hds
      have e2 := (price_to_fill_insufficient_iff b .sell v hv hbn).mpr hbuys
      simp only [OrderBook.spread_to_fill, OrderBook.price_to_fill_buy_order,
        OrderBook.price_to_fill_sell_order, e1, e2]

/-- C2 witness: the spec's spread example evaluated through the amended
theorem, giving `(99, 101)`. -/
theorem C2_spread_witness : c2Book.spread_to_fill 1 = .ok (99, 101) :=
  ((C2_spread_to_fill_pair c2Book 1 (by norm_num)
      (by norm_num [c2Book, List.forall_mem_cons])
      (by norm_num [c2Book, List.forall_mem_cons])).1
    (by norm_num [c2Book, sumVolume]) (by norm_num [c2Book, sumVolume])).trans
    (by norm_num [c2Book, vwapCost])

/-- C3 counterexample: the clock-reading source `nonce()` of
src/market/private.rs re-reads the wall clock on every call, so two calls
within the same clock second (reading 5 twice) return `[5, 5]` — not strictly
increasing, and the second call is not the previous value + 1. -/
theorem C3_clock_nonce_counterexample :
    MarketPrivate.nonceSeq [some 5, some 5] = some [5, 5] ∧
    ¬ List.Chain' (fun a b : Nat => a < b) [5, 5] := by
  refine ⟨rfl, ?_⟩
  simp [List.chain'_cons]

/-- C3 amended: the stateful counter `Private::inc_nonce` does satisfy the
claim — the first call returns the seed and every later call returns exactly
the previous value + 1, hence strictly increasing — for every seed and call
index that do not overflow `u64`; the repository's other nonce source, the
clock-reading `nonce()` of src/market/private.rs, violates it (see the
counterexample). -/
theorem C3_inc_nonce_strictly_increasing (seed n : Nat)
    (h : seed + n + 1 < ApiPrivate.U64MOD) :
    ApiPrivate.nthNonce ⟨seed⟩ (n + 1) = ApiPrivate.nthNonce ⟨seed⟩ n + 1 ∧
    ApiPrivate.nthNonce ⟨seed⟩ n < ApiPrivate.nthNonce ⟨seed⟩ (n + 1) := by
  rw [nthNonce_eq (n + 1) seed h, nthNonce_eq n seed (by omega)]
  omega

/-- C3 witness: a wall-clock-sized seed, calls 42 and 43. -/
theorem C3_inc_nonce_witness :
    ApiPrivate.nthNonce ⟨1600000000⟩ 42 = ApiPrivate.nthNonce ⟨1600000000⟩ 41 + 1 ∧
    ApiPrivate.nthNonce ⟨1600000000⟩ 41 < ApiPrivate.nthNonce ⟨1600000000⟩ 42 :=
  C3_inc_nonce_strictly_increasing 1600000000 41 (by norm_num [ApiPrivate.U64MOD])

/-- C4: for every requested volume `v > 0` against data-model non-negative
level volumes, `price_to_fill` returns the liquidity error exactly when the
matching side's total volume is strictly below `v`; the error constructor
carries no price, so no price is extrapolated. -/
theorem C4_insufficient_liquidity_iff (b : OrderBook) (pos : Position) (v : Rat)
    (hv : 0 < v) (hnn : ∀ o ∈ b.side pos, 0 ≤ o.volume) :
    b.price_to_fill v pos = .insufficientLiquidity ↔ sumVolume (b.side pos) < v :=
  price_to_fill_insufficient_iff b pos v hv hnn

/-- C4 witness: the spec's example — `price_to_fill(Buy, 6)` on total sell
depth 5 is the liquidity error. -/
theorem C4_insufficient_witness :
    exampleBook.price_to_fill 6 .buy = .insufficientLiquidity :=
  (C4_insufficient_liquidity_iff exampleBook .buy 6 (by norm_num)
    (by norm_num [exampleBook, OrderBook.side, List.forall_mem_cons])).mpr
    (by norm_num [exampleBook, OrderBook.side, sumVolume])

/-- C5 (code bug): `price_to_fill` performs no input validation. At volume 0
the walk runs to completion and the function reaches `total_spend / volume`
with a zero divisor, on which `rust_decimal` division aborts the process —
also on an empty book; at volume −1 it silently returns the best level's
price instead of an input-validation error. -/
theorem C5_no_volume_validation :
    c2Book.price_to_fill 0 .buy = .divByZero ∧
    c2Book.price_to_fill (-1) .buy = .ok 101 ∧
    (OrderBook.mk [] []).price_to_fill 0 .buy = .divByZero := by
  refine ⟨?_, ?_, ?_⟩ <;>
    norm_num [c2Book, OrderBook.price_to_fill, OrderBook.side, fillLoop]

/-- C6: for every raw snapshot, the constructed book's buys sequence is
non-increasing in price (best bid first) and its sells sequence is
non-decreasing in price (best ask first). -/
theorem C6_construction_sorted (ob : ApiOrderBook) :
    (OrderBook.fromApi ob).buys.Pairwise (fun a b => b.price ≤ a.price) ∧
    (OrderBook.fromApi ob).sells.Pairwise (fun a b => a.price ≤ b.price) := by
  constructor
  · exact pairwise_sortBy (fun a b : Order => b.price ≤ a.price)
      (fun a b => le_total b.price a.price)
      (fun a b c hab hbc => le_trans hbc hab) _
  · exact pairwise_sortBy (fun a b : Order => a.price ≤ b.price)
      (fun a b => le_total a.price b.price)
      (fun a b c hab hbc => le_trans hab hbc) _

/-- C8 (code bug): `bid_offer_spread` takes `.first().unwrap()` on each side
after sorting, so a book whose buys or sells list is empty aborts the process
instead of returning a no-data result; on a two-sided book it reports best
bid, best offer and their truncated difference. -/
theorem C8_empty_side_aborts :
    (PublicOrderbook.OrderBook.mk [⟨"buy", 99, 1⟩] []).bid_offer_spread = .unwrapAbort ∧
    (PublicOrderbook.OrderBook.mk [] [⟨"sell", 101, 1⟩]).bid_offer_spread = .unwrapAbort ∧
    (PublicOrderbook.OrderBook.mk [⟨"buy", 99, 1⟩] [⟨"sell", 101, 1⟩]).bid_offer_spread =
      .ok 99 101 2 := by
  refine ⟨?_, ?_, ?_⟩ <;>
    norm_num [PublicOrderbook.OrderBook.bid_offer_spread,
      PublicOrderbook.OrderBook.sortSides, sortBy, insertBy,
      PublicOrderbook.truncate_to_cents, PublicOrderbook.truncate_to_decimal_places,
      PublicOrderbook.truncRat]

/-- C9 counterexample: when the clock reading is unavailable, the cited
`nonce()` of src/market/private.rs aborts via `expect` — it does not return
the claimed fallback value 0. -/
theorem C9_no_fallback_counterexample :
    MarketPrivate.nonceSeq [none] = none ∧ MarketPrivate.nonceSeq [none] ≠ some [0] := by
  refine ⟨rfl, ?_⟩
  decide

/-- C9 amended: nonce issuance cannot fail while the wall clock is readable —
a trace of readable clock values yields exactly one nonce per call — but on
an unavailable clock reading the `nonce()` of src/market/private.rs aborts
instead of falling back to 0; the fallback-to-0 at seed time belongs to the
seed helper `crate::nonce`, absent from src/ and modelled from the spec as
`crateNonce`, which does return 0 there. -/
theorem C9_issuance_total_when_clock_readable (trace : List (Option Nat))
    (h : ∀ c ∈ trace, c ≠ none) :
    (∃ vs, MarketPrivate.nonceSeq trace = some vs ∧ vs.length = trace.length) ∧
    MarketPrivate.nonce none = none ∧ crateNonce none = 0 := by
  have key : ∀ t : List (Option Nat), (∀ c ∈ t, c ≠ none) →
      ∃ vs, MarketPrivate.nonceSeq t = some vs ∧ vs.length = t.length := by
    intro t
    induction t with
    | nil => intro _; exact ⟨[], rfl, rfl⟩
    | cons c cs ih =>
      intro hh
      obtain ⟨v, hv⟩ : ∃ v, c = some v := by
        cases c with
        | none => exact absurd rfl (hh none (List.mem_cons_self _ _))
        | some v => exact ⟨v, rfl⟩
      obtain ⟨vs, hvs, hlen⟩ := ih fun x hx => hh x (List.mem_cons_of_mem _ hx)
      subst hv
      exact ⟨v :: vs, by simp [MarketPrivate.nonceSeq, MarketPrivate.nonce, hvs],
        by simp [hlen]⟩
  exact ⟨key trace h, rfl, rfl⟩

/-- C9 witness: a two-call trace with readable clock values. -/
theorem C9_issuance_witness :
    (∃ vs, MarketPrivate.nonceSeq [some 3, some 7] = some vs ∧
      vs.length = [some 3, some 7].length) ∧
    MarketPrivate.nonce none = none ∧ crateNonce none = 0 :=
  C9_issuance_total_when_clock_readable [some 3, some 7] (by decide)

/-- C10: with the matching side sorted best-first and data-model non-negative
volumes, the fill price is monotone in the requested volume: against sells
non-decreasing in price, `0 < v1 ≤ v2` within depth gives
`price(Buy, v1) ≤ price(Buy, v2)`; symmetrically, against buys non-increasing
in price, `price(Sell, v1) ≥ price(Sell, v2)`. -/
theorem C10_fill_price_monotone (b : OrderBook) (v1 v2 : Rat)
    (h1 : 0 < v1) (h12 : v1 ≤ v2) :
    (b.sells.Pairwise (fun a c => a.price ≤ c.price) → (∀ o ∈ b.sells, 0 ≤ o.volume) →
      v2 ≤ sumVolume b.sells → ∀ p1 p2,
      b.price_to_fill v1 .buy = .ok p1 → b.price_to_fill v2 .buy = .ok p2 → p1 ≤ p2) ∧
    (b.buys.Pairwise (fun a c => c.price ≤ a.price) → (∀ o ∈ b.buys, 0 ≤ o.volume) →
      v2 ≤ sumVolume b.buys → ∀ p1 p2,
      b.price_to_fill v1 .sell = .ok p1 → b.price_to_fill v2 .sell = .ok p2 → p2 ≤ p1) := by
  have h2 : 0 < v2 := lt_of_lt_of_le h1 h12
  constructor
  · intro hpw hnn hd p1 p2 hp1 hp2
    have e1 := price_to_fill_ok b .buy v1 h1 hnn (le_trans h12 hd)
    have e2 := price_to_fill_ok b .buy v2 h2 hnn hd
    rw [← FillResult.ok.inj (e1.symm.trans hp1), ← FillResult.ok.inj (e2.symm.trans hp2)]
    exact vwap_div_mono b.sells v1 v2 hpw hnn h1 h12 hd
  · intro hpw hnn hd p1 p2 hp1 hp2
    have e1 := price_to_fill_ok b .sell v1 h1 hnn (le_trans h12 hd)
    have e2 := price_to_fill_ok b .sell v2 h2 hnn hd
    rw [← FillResult.ok.inj (e1.symm.trans hp1), ← FillResult.ok.inj (e2.symm.trans hp2)]
    exact vwap_div_antitone b.buys v1 v2 hpw hnn h1 h12 hd

/-- C10 witness: on `mBook`, buying 1 costs 100 per unit and buying 4 costs
105 per unit (so 100 ≤ 105); selling 1 yields 99 per unit and selling 4
yields 98.5 per unit (so 98.5 ≤ 99). -/
theorem C10_monotone_witness : ((100 : Rat) ≤ 105) ∧ ((197 / 2 : Rat) ≤ 99) :=
  ⟨(C10_fill_price_monotone mBook 1 4 (by norm_num) (by norm_num)).1
      (by norm_num [mBook, List.pairwise_cons])
      (by norm_num [mBook, List.forall_mem_cons])
      (by norm_num [mBook, sumVolume]) 100 105
      (by norm_num [mBook, OrderBook.price_to_fill, OrderBook.side, fillLoop])
      (by norm_num [mBook, OrderBook.price_to_fill, OrderBook.side, fillLoop]),
   (C10_fill_price_monotone mBook 1 4 (by norm_num) (by norm_num)).2
      (by norm_num [mBook, List.pairwise_cons])
      (by norm_num [mBook, List.forall_mem_cons])
      (by norm_num [mBook, sumVolume]) 99 (197 / 2)
      (by norm_num [mBook, OrderBook.price_to_fill, OrderBook.side, fillLoop])
      (by norm_num [mBook, OrderBook.price_to_fill, OrderBook.side, fillLoop])⟩

end CryptoTrader
